import Mathlib

/-!
# Photometer: shallow embedding of `reference.cpp`

This file embeds the photometer evidence engine (`reference.cpp`) in Lean 4.

Modelling conventions:
* C++ `double` fields (times, lux values) are modelled as `ℚ`.  All constants
  of the program (`50e3`, `390`, `0.0165 = 33/2000`, `100e3`) are exact in `ℚ`.
* `std::multimap<double, Sample>` keyed by `end` is modelled as a
  `List Sample` kept sorted by ascending `end_` (new entries with an equal key
  go after the existing ones, which is what `emplace` does for a `multimap`).
  The key of every stored pair is always `sample.end()` in the source, so the
  key column is left implicit.
  - `erase(begin, upper_bound(now))` removes the initial run of entries with
    key `≤ now`; on the sorted list this is `dropWhile (end_ ≤ now)`.
  - the snapshot constructor `Photometer(current, future)` copies the range
    `[upper_bound(future), cend())`, i.e. `dropWhile (end_ ≤ future)`.
  - `find_if` over the map is `List.any`.
* The bit-packed 2-byte wire word (`RawSample`) is a structure of its five
  fields; `RawSample.ofBytes` performs the LSB-first unpacking the C++
  bit-field layout gives (confirmed by the byte-level asserts in
  `test_serialise`).
* `static_cast<int16_t>` of a double truncates toward zero (`truncToward0`).
* `std::round(std::log(x)/std::log(2))` is modelled by `roundLog2`, the
  nearest-integer base-2 logarithm, characterised for `x > 0` by
  `2 ^ (2h) ≤ 2 x² < 2 ^ (2h + 2)`; for the rational inputs of interest the
  exact half-way case would need `x` to be an irrational power of two, so the
  tie direction is immaterial.
-/

/-- Truncation toward zero, the semantics of `static_cast<int16_t>` applied to
a double. -/
def truncToward0 (q : ℚ) : ℤ :=
  if 0 ≤ q then ⌊q⌋ else ⌈q⌉

/-- Nearest-integer base-2 logarithm: models
`std::round(std::log q / std::log 2.)` for the positive rationals produced by
the horizon arithmetic.  For `q` with `2 ^ (2*h) ≤ 2*q^2 < 2 ^ (2*h + 2)`
(that is, `h - 1/2 ≤ log2 q < h + 1/2`) the result is `h`. -/
def roundLog2 (q : ℚ) : ℕ :=
  Nat.log 2 (⌊2 * q ^ 2⌋).toNat / 2

/-- The 16-bit wire word (`struct RawSample`), as its five unpacked fields:
`confidence` (2 bits), `clear` (1 bit), `value` (signed 8 bits), `sign`
(1 bit), `horizon` (4 bits), packed LSB-first. -/
structure RawSample where
  confidence : ℕ
  clear : Bool
  value : ℤ
  sign : Bool
  horizon : ℕ
deriving DecidableEq, Repr

namespace RawSample

/-- Unpack a 2-byte little-endian wire packet into its bit fields
(`std::memcpy` into the bit-field struct; layout fixed by the byte-level
asserts of `test_serialise`). -/
def ofBytes (b0 b1 : ℕ) : RawSample :=
  let n := b0 % 256 + 256 * (b1 % 256)
  { confidence := n % 4
    clear := n / 4 % 2 = 1
    value := if n / 8 % 256 < 128 then ((n / 8 % 256 : ℕ) : ℤ)
      else ((n / 8 % 256 : ℕ) : ℤ) - 256
    sign := n / 2048 % 2 = 1
    horizon := n / 4096 % 16 }

/-- Pack the bit fields back into the 2-byte little-endian wire word (the
inverse of `ofBytes`; in the source this is the in-memory layout of the
bit-field struct read back out byte by byte).  The signed `value` field is
stored as its two's-complement 8-bit pattern. -/
def toBytes (r : RawSample) : ℕ × ℕ :=
  let n := r.confidence % 4 + 4 * (if r.clear then 1 else 0) +
    8 * (r.value % 256).toNat + 2048 * (if r.sign then 1 else 0) +
    4096 * (r.horizon % 16)
  (n % 256, n / 256)

/-- `RawSample::value_lx`. -/
def value_lx (r : RawSample) : ℚ :=
  50000 + 390 * (r.value : ℚ)

/-- `RawSample::horizon_s`. -/
def horizon_s (r : RawSample) : ℚ :=
  (33 / 2000) * 2 ^ r.horizon

end RawSample

/-- One decoded evidence sample (`class Sample` in the source).  Field names
follow the private members of the C++ class. -/
structure Sample where
  start_ : ℚ
  end_ : ℚ
  sign_ : Bool
  value_ : ℚ
  clear_ : Bool
  confidence_ : ℕ
deriving DecidableEq, Repr

namespace Sample

/-- `Sample::conflicts`: the two samples bound in opposite directions and the
claimed floor exceeds the claimed ceiling. -/
def conflicts (s other : Sample) : Bool :=
  (s.sign_ && !other.sign_ && decide (s.value_ < other.value_)) ||
  (!s.sign_ && other.sign_ && decide (s.value_ > other.value_))

/-- `Sample::is_superset_of`: `s` lasts at least as long and is at least as
tight a bound in the same direction as `other`. -/
def is_superset_of (s other : Sample) : Bool :=
  decide (s.end_ ≥ other.end_) &&
  ((s.sign_ && other.sign_ && decide (s.value_ ≤ other.value_)) ||
   (!s.sign_ && !other.sign_ && decide (s.value_ ≥ other.value_)))

/-- `Sample::overrides`: a conflicting sample wins by confidence, then by
earlier start. -/
def overrides (s other : Sample) : Bool :=
  if s.conflicts other then
    decide (s.confidence_ > other.confidence_) ||
    (decide (s.confidence_ = other.confidence_) && decide (s.start_ < other.start_))
  else false

/-- `Sample::resolve_lower`: keep the greater lower bound. -/
def resolve_lower (s other : Sample) : Sample :=
  if s.value_ > other.value_ then s else other

/-- `Sample::resolve_upper`: keep the lesser upper bound. -/
def resolve_upper (s other : Sample) : Sample :=
  if s.value_ < other.value_ then s else other

/-- The decoding constructor `Sample(double now, const RawSample &raw)`. -/
def ofRaw (now : ℚ) (raw : RawSample) : Sample :=
  { start_ := now
    end_ := now + raw.horizon_s
    sign_ := raw.sign
    value_ := raw.value_lx
    clear_ := raw.clear
    confidence_ := raw.confidence }

/-- `Sample::from_raw(double now, const uint8_t (&data)[2])`: unpack the two
wire bytes and decode. -/
def from_raw (now : ℚ) (b0 b1 : ℕ) : Sample :=
  ofRaw now (RawSample.ofBytes b0 b1)

/-- `Sample::raw()` — the encoder: truncate the value back to its signed
8-bit grid index and round the horizon back to its power-of-two exponent. -/
def raw (s : Sample) : RawSample :=
  { confidence := s.confidence_
    clear := s.clear_
    value := truncToward0 ((s.value_ - 50000) / 390)
    sign := s.sign_
    horizon := roundLog2 ((s.end_ - s.start_) / (33 / 2000)) }

end Sample

/-- `std::numeric_limits<double>::max()`, the value used for the sentinels'
unbounded validity. -/
def dblMax : ℚ := 2 ^ 1024 - 2 ^ 971

/-- `Sample(bool universal_sign)` with `universal_sign = false`: the sentinel
lower bound, weaker than every real sample. -/
def universal_lower : Sample :=
  ⟨-dblMax, dblMax, false, 0, false, 0⟩

/-- `Sample(bool universal_sign)` with `universal_sign = true`: the sentinel
upper bound, weaker than every real sample. -/
def universal_upper : Sample :=
  ⟨-dblMax, dblMax, true, 100000, false, 0⟩

/-- The engine state (`class Photometer`): the two end-sorted collections. -/
structure Photometer where
  lower_by_end : List Sample
  upper_by_end : List Sample
deriving DecidableEq, Repr

namespace Photometer

/-- `Photometer()` — the default-constructed, empty engine. -/
def empty : Photometer := ⟨[], []⟩

/-- `Photometer::size`. -/
def size (m : Photometer) : ℕ :=
  m.lower_by_end.length + m.upper_by_end.length

/-- `Photometer::erase_old`: erase `[begin, upper_bound(now))` from both maps,
i.e. drop the leading entries whose `end_` is at most `now`. -/
def erase_old (m : Photometer) (now : ℚ) : Photometer :=
  ⟨m.lower_by_end.dropWhile (fun s => decide (s.end_ ≤ now)),
   m.upper_by_end.dropWhile (fun s => decide (s.end_ ≤ now))⟩

/-- `Photometer(const Photometer &current, double future)`: the filtered
snapshot holding the ranges `[upper_bound(future), cend())` of both maps. -/
def asOf (m : Photometer) (future : ℚ) : Photometer :=
  ⟨m.lower_by_end.dropWhile (fun s => decide (s.end_ ≤ future)),
   m.upper_by_end.dropWhile (fun s => decide (s.end_ ≤ future))⟩

/-- `multimap::emplace(sample.end(), sample)`: insert after every entry whose
key is at most the new key (the upper bound of the equal range). -/
def emplaceByEnd (e : Sample) : List Sample → List Sample
  | [] => [e]
  | o :: rest =>
    if o.end_ ≤ e.end_ then o :: emplaceByEnd e rest else e :: o :: rest

/-- `Photometer::consume(const Sample&)`: clear or prune, then insert unless an
existing entry of the target collection subsumes the new sample. -/
def consume (m : Photometer) (sample : Sample) : Photometer :=
  let m' := if sample.clear_ then Photometer.empty else m.erase_old sample.start_
  if sample.sign_ then
    if m'.upper_by_end.any (fun o => o.is_superset_of sample) then m'
    else ⟨m'.lower_by_end, emplaceByEnd sample m'.upper_by_end⟩
  else
    if m'.lower_by_end.any (fun o => o.is_superset_of sample) then m'
    else ⟨emplaceByEnd sample m'.lower_by_end, m'.upper_by_end⟩

/-- `Photometer::lower`: fold the surviving lower entries, narrowing upward
from `universal_lower`. -/
def lower (m : Photometer) : ℚ :=
  (m.lower_by_end.foldl
    (fun acc kvl =>
      if m.upper_by_end.any (fun kvu => kvu.overrides kvl) then acc
      else acc.resolve_lower kvl)
    universal_lower).value_

/-- `Photometer::upper`: fold the surviving upper entries, narrowing downward
from `universal_upper`. -/
def upper (m : Photometer) : ℚ :=
  (m.upper_by_end.foldl
    (fun acc kvu =>
      if m.lower_by_end.any (fun kvl => kvl.overrides kvu) then acc
      else acc.resolve_upper kvu)
    universal_upper).value_

/-- `Photometer::estimate()`: midpoint of the current envelope. -/
def estimate (m : Photometer) : ℚ :=
  (1 / 2) * (m.lower + m.upper)

/-- `Photometer::estimate(double now)`: estimate on the as-of snapshot. -/
def estimateAt (m : Photometer) (now : ℚ) : ℚ :=
  (m.asOf now).estimate

/-- The engine states reachable from the default constructor through
`consume` calls. -/
inductive Reachable : Photometer → Prop
  | empty : Reachable Photometer.empty
  | consume (m : Photometer) (s : Sample) : Reachable m → Reachable (m.consume s)

/-- `MapT &target = sample.sign()? upper_by_end: lower_by_end;` — the
collection `consume` scans and inserts into. -/
def target (m : Photometer) (sample : Sample) : List Sample :=
  if sample.sign_ then m.upper_by_end else m.lower_by_end

/-- The structural invariant of the two collections: each is sorted by `end_`
(the multimap key), no entry is a superset of an entry stored after it, and
each collection holds only samples of its own direction. -/
structure Inv (m : Photometer) : Prop where
  sorted_lower : m.lower_by_end.Pairwise (fun a b => a.end_ ≤ b.end_)
  sorted_upper : m.upper_by_end.Pairwise (fun a b => a.end_ ≤ b.end_)
  nosup_lower : m.lower_by_end.Pairwise (fun a b => a.is_superset_of b = false)
  nosup_upper : m.upper_by_end.Pairwise (fun a b => a.is_superset_of b = false)
  dir_lower : ∀ s ∈ m.lower_by_end, s.sign_ = false
  dir_upper : ∀ s ∈ m.upper_by_end, s.sign_ = true

end Photometer

/-! ## Structural lemmas about the collections -/

theorem mem_emplaceByEnd {e a : Sample} : ∀ {l : List Sample},
    a ∈ Photometer.emplaceByEnd e l ↔ a = e ∨ a ∈ l := by
  intro l
  induction l with
  | nil => simp [Photometer.emplaceByEnd]
  | cons o rest ih =>
    rw [Photometer.emplaceByEnd]
    split
    · simp only [List.mem_cons, ih]
      tauto
    · simp [List.mem_cons]

theorem emplaceByEnd_sorted {e : Sample} {l : List Sample}
    (h : l.Pairwise (fun a b => a.end_ ≤ b.end_)) :
    (Photometer.emplaceByEnd e l).Pairwise (fun a b => a.end_ ≤ b.end_) := by
  induction l with
  | nil => simp [Photometer.emplaceByEnd]
  | cons o rest ih =>
    rcases List.pairwise_cons.mp h with ⟨ho, hrest⟩
    rw [Photometer.emplaceByEnd]
    split
    case isTrue hoe =>
      refine List.pairwise_cons.mpr ⟨?_, ih hrest⟩
      intro x hx
      rcases mem_emplaceByEnd.mp hx with rfl | hx
      · exact hoe
      · exact ho x hx
    case isFalse hoe =>
      push_neg at hoe
      refine List.pairwise_cons.mpr ⟨?_, h⟩
      intro x hx
      rcases List.mem_cons.mp hx with rfl | hx
      · exact le_of_lt hoe
      · exact le_trans (le_of_lt hoe) (ho x hx)

theorem is_superset_of_false_of_end_lt {e x : Sample} (h : e.end_ < x.end_) :
    e.is_superset_of x = false := by
  simp [Sample.is_superset_of, not_le.mpr h]

theorem emplaceByEnd_nosup {e : Sample} {l : List Sample}
    (hsort : l.Pairwise (fun a b => a.end_ ≤ b.end_))
    (hno : l.Pairwise (fun a b => a.is_superset_of b = false))
    (hall : ∀ o ∈ l, o.is_superset_of e = false) :
    (Photometer.emplaceByEnd e l).Pairwise (fun a b => a.is_superset_of b = false) := by
  induction l with
  | nil => simp [Photometer.emplaceByEnd]
  | cons o rest ih =>
    rcases List.pairwise_cons.mp hsort with ⟨hoend, hsrest⟩
    rcases List.pairwise_cons.mp hno with ⟨hosup, hnrest⟩
    rw [Photometer.emplaceByEnd]
    split
    case isTrue hoe =>
      refine List.pairwise_cons.mpr
        ⟨?_, ih hsrest hnrest (fun x hx => hall x (List.mem_cons_of_mem o hx))⟩
      intro x hx
      rcases mem_emplaceByEnd.mp hx with rfl | hx
      · exact hall o (List.mem_cons_self o rest)
      · exact hosup x hx
    case isFalse hoe =>
      push_neg at hoe
      refine List.pairwise_cons.mpr ⟨?_, hno⟩
      intro x hx
      rcases List.mem_cons.mp hx with rfl | hx
      · exact is_superset_of_false_of_end_lt hoe
      · exact is_superset_of_false_of_end_lt (lt_of_lt_of_le hoe (hoend x hx))

theorem inv_empty : Photometer.empty.Inv := by
  constructor <;> simp [Photometer.empty]

theorem inv_erase_old {m : Photometer} (h : m.Inv) (now : ℚ) :
    (m.erase_old now).Inv := by
  constructor
  · exact h.sorted_lower.sublist (List.dropWhile_sublist _)
  · exact h.sorted_upper.sublist (List.dropWhile_sublist _)
  · exact h.nosup_lower.sublist (List.dropWhile_sublist _)
  · exact h.nosup_upper.sublist (List.dropWhile_sublist _)
  · exact fun s hs => h.dir_lower s ((List.dropWhile_sublist _).subset hs)
  · exact fun s hs => h.dir_upper s ((List.dropWhile_sublist _).subset hs)

theorem inv_consume {m : Photometer} (h : m.Inv) (e : Sample) :
    (m.consume e).Inv := by
  have hbase : (if e.clear_ then Photometer.empty else m.erase_old e.start_).Inv := by
    split
    · exact inv_empty
    · exact inv_erase_old h e.start_
  rw [Photometer.consume]
  set m' := if e.clear_ then Photometer.empty else m.erase_old e.start_ with hm'
  by_cases hs : e.sign_ = true <;> simp only [hs, if_true, if_false, Bool.false_eq_true]
  · split
    next => exact hbase
    next hany =>
      constructor
      · exact hbase.sorted_lower
      · exact emplaceByEnd_sorted hbase.sorted_upper
      · exact hbase.nosup_lower
      · refine emplaceByEnd_nosup hbase.sorted_upper hbase.nosup_upper ?_
        intro o ho
        cases hval : o.is_superset_of e
        · rfl
        · exact absurd (List.any_eq_true.mpr ⟨o, ho, hval⟩) hany
      · exact hbase.dir_lower
      · intro s hmem
        rcases mem_emplaceByEnd.mp hmem with rfl | hmem
        · exact hs
        · exact hbase.dir_upper s hmem
  · split
    next => exact hbase
    next hany =>
      constructor
      · exact emplaceByEnd_sorted hbase.sorted_lower
      · exact hbase.sorted_upper
      · refine emplaceByEnd_nosup hbase.sorted_lower hbase.nosup_lower ?_
        intro o ho
        cases hval : o.is_superset_of e
        · rfl
        · exact absurd (List.any_eq_true.mpr ⟨o, ho, hval⟩) hany
      · exact hbase.nosup_upper
      · intro s hmem
        rcases mem_emplaceByEnd.mp hmem with rfl | hmem
        · exact Bool.eq_false_iff.mpr hs
        · exact hbase.dir_lower s hmem
      · exact hbase.dir_upper

theorem reachable_inv {m : Photometer} (h : Photometer.Reachable m) : m.Inv := by
  induction h with
  | empty => exact inv_empty
  | consume m s _ ih => exact inv_consume ih s

theorem dropWhile_le_eq_filter (t : ℚ) :
    ∀ l : List Sample, l.Pairwise (fun a b => a.end_ ≤ b.end_) →
      l.dropWhile (fun s => decide (s.end_ ≤ t)) =
        l.filter (fun s => decide (t < s.end_)) := by
  intro l h
  induction l with
  | nil => rfl
  | cons o rest ih =>
    rcases List.pairwise_cons.mp h with ⟨ho, hrest⟩
    by_cases hot : o.end_ ≤ t
    · simpa [List.dropWhile_cons, List.filter_cons, hot, not_lt.mpr hot] using ih hrest
    · push_neg at hot
      have hkeep : List.filter (fun s => decide (t < s.end_)) rest = rest :=
        List.filter_eq_self.mpr fun x hx => decide_eq_true (lt_of_lt_of_le hot (ho x hx))
      simp [List.dropWhile_cons, List.filter_cons, hot, not_le.mpr hot, hkeep]

/-- Consuming a clearing sample wipes both collections and then inserts the
sample itself into its direction's (now empty) collection. -/
theorem consume_clear (m : Photometer) (e : Sample) (he : e.clear_ = true) :
    m.consume e = if e.sign_ then ⟨[], [e]⟩ else ⟨[e], []⟩ := by
  by_cases hs : e.sign_ = true <;>
    simp [Photometer.consume, he, hs, Photometer.empty, Photometer.emplaceByEnd]

/-! ## Codec lemmas -/

theorem truncToward0_intCast (v : ℤ) : truncToward0 (v : ℚ) = v := by
  unfold truncToward0
  split <;> simp

theorem roundLog2_pow (h : ℕ) : roundLog2 ((2 : ℚ) ^ h) = h := by
  unfold roundLog2
  have hcast : (2 : ℚ) * ((2 : ℚ) ^ h) ^ 2 = ((2 ^ (2 * h + 1) : ℕ) : ℚ) := by
    push_cast
    ring
  rw [hcast, Int.floor_natCast, Int.toNat_natCast, Nat.log_pow (by norm_num)]
  omega

/-- Re-encoding a decoded sample recovers the raw fields exactly. -/
theorem raw_ofRaw (now : ℚ) (r : RawSample) : (Sample.ofRaw now r).raw = r := by
  rcases r with ⟨c, cl, v, s, h⟩
  simp only [Sample.ofRaw, Sample.raw, RawSample.value_lx, RawSample.horizon_s,
    RawSample.mk.injEq, true_and, and_true]
  refine ⟨?_, ?_⟩
  · rw [show (50000 + 390 * (v : ℚ) - 50000) = 390 * (v : ℚ) by ring,
      mul_div_cancel_left₀ _ (by norm_num : (390 : ℚ) ≠ 0)]
    exact truncToward0_intCast v
  · rw [show (now + 33 / 2000 * 2 ^ h - now) = 33 / 2000 * 2 ^ h by ring,
      mul_div_cancel_left₀ _ (by norm_num : (33 / 2000 : ℚ) ≠ 0)]
    exact roundLog2_pow h

/-- Unpacking the packed word recovers the fields, provided they are within
their bit widths (which `ofBytes` guarantees). -/
theorem ofBytes_toBytes (r : RawSample) (hc : r.confidence < 4)
    (hv1 : -128 ≤ r.value) (hv2 : r.value < 128) (hh : r.horizon < 16) :
    RawSample.ofBytes r.toBytes.1 r.toBytes.2 = r := by
  rcases r with ⟨c, cl, v, s, h⟩
  simp only at hc hv1 hv2 hh
  rcases cl <;> rcases s <;>
    · simp [RawSample.toBytes, RawSample.ofBytes, RawSample.mk.injEq]
      refine ⟨by omega, by omega, ?_, by omega, by omega⟩
      split <;> omega

/-- The fields produced by `ofBytes` are within their bit widths. -/
theorem ofBytes_ranges (b0 b1 : ℕ) :
    (RawSample.ofBytes b0 b1).confidence < 4 ∧
    -128 ≤ (RawSample.ofBytes b0 b1).value ∧
    (RawSample.ofBytes b0 b1).value < 128 ∧
    (RawSample.ofBytes b0 b1).horizon < 16 := by
  simp only [RawSample.ofBytes]
  refine ⟨by omega, ?_, ?_, by omega⟩ <;>
    · split <;> omega

/-! ## Claim theorems -/

/-- C1: consuming (start=1, end=2, lower, 40000, confidence 0) and then
(start=1, end=1.5, upper, 20000, confidence 1) into a fresh engine gives
`estimate(1.2) = 10000` (the overridden lower bound falls back to the
universal lower sentinel 0, so the result is `0.5*(0+20000)`) and
`estimate(1.7) = 70000` (the upper entry has expired, so the result is
`0.5*(40000+100000)`). -/
theorem C1_confidence_override_scenario :
    ((Photometer.empty.consume ⟨1, 2, false, 40000, false, 0⟩).consume
        ⟨1, 3/2, true, 20000, false, 1⟩).estimateAt (6/5) = 10000 ∧
    ((Photometer.empty.consume ⟨1, 2, false, 40000, false, 0⟩).consume
        ⟨1, 3/2, true, 20000, false, 1⟩).estimateAt (17/10) = 70000 := by
  norm_num [Photometer.estimateAt, Photometer.estimate, Photometer.asOf,
    Photometer.consume, Photometer.erase_old, Photometer.empty,
    Photometer.lower, Photometer.upper, Photometer.emplaceByEnd,
    Sample.overrides, Sample.conflicts, Sample.is_superset_of,
    Sample.resolve_lower, Sample.resolve_upper,
    universal_lower, universal_upper, List.dropWhile, List.any, List.foldl]

/-- C2: `overrides(a, b)` holds exactly when the two samples bound in opposite
directions with the claimed floor strictly above the claimed ceiling, and `a`
wins on confidence, or on equal confidence by the strictly earlier start. -/
theorem C2_overrides_characterisation (a b : Sample) :
    a.overrides b = true ↔
      (((a.sign_ = false ∧ b.sign_ = true ∧ b.value_ < a.value_) ∨
        (a.sign_ = true ∧ b.sign_ = false ∧ a.value_ < b.value_)) ∧
       (b.confidence_ < a.confidence_ ∨
        (a.confidence_ = b.confidence_ ∧ a.start_ < b.start_))) := by
  rcases a with ⟨as, ae, asg, av, ac, acf⟩
  rcases b with ⟨bs, be, bsg, bv, bc, bcf⟩
  cases asg <;> cases bsg <;>
    simp [Sample.overrides, Sample.conflicts]

/-- C4 counterexample: consuming the lower bound (end 1, value 5) and then the
lower bound (end 2, value 10) stores both, yet the second stored entry is a
non-strict superset of the first, so the no-superset-pair invariant claimed
for the collections fails. -/
theorem C4_superset_pair_counterexample :
    (⟨0, 1, false, 5, false, 0⟩ : Sample) ∈
      ((Photometer.empty.consume ⟨0, 1, false, 5, false, 0⟩).consume
        ⟨0, 2, false, 10, false, 0⟩).lower_by_end ∧
    (⟨0, 2, false, 10, false, 0⟩ : Sample) ∈
      ((Photometer.empty.consume ⟨0, 1, false, 5, false, 0⟩).consume
        ⟨0, 2, false, 10, false, 0⟩).lower_by_end ∧
    (⟨0, 2, false, 10, false, 0⟩ : Sample) ≠ (⟨0, 1, false, 5, false, 0⟩ : Sample) ∧
    Sample.is_superset_of ⟨0, 2, false, 10, false, 0⟩ ⟨0, 1, false, 5, false, 0⟩ = true := by
  decide

/-- C6 counterexample: consuming a clearing sample does not leave both
collections empty — after wiping them, `consume` still runs the superset scan
on the (now empty) target and inserts the clearing sample itself. -/
theorem C6_clear_inserts_counterexample :
    (⟨1, 2, false, 40000, true, 0⟩ : Sample).clear_ = true ∧
    (Photometer.empty.consume ⟨1, 2, false, 40000, true, 0⟩).size ≠ 0 ∧
    (⟨1, 2, false, 40000, true, 0⟩ : Sample) ∈
      (Photometer.empty.consume ⟨1, 2, false, 40000, true, 0⟩).lower_by_end := by
  decide

/-- C8 counterexample: for the in-range sample with value 50300 (and horizon
exactly one base step), the encoder emits wire value field 0 — it truncates
`(50300 - 50000)/390 ≈ 0.77` toward zero — whereas rounding to the nearest
representable quantized value would give 1. -/
theorem C8_truncation_not_rounding_counterexample :
    (Sample.raw ⟨0, 33/2000, false, 50300, false, 0⟩).value = 0 ∧
    round (((⟨0, 33/2000, false, 50300, false, 0⟩ : Sample).value_ - 50000) / 390) = 1 ∧
    (Sample.raw ⟨0, 33/2000, false, 50300, false, 0⟩).value ≠
      round (((⟨0, 33/2000, false, 50300, false, 0⟩ : Sample).value_ - 50000) / 390) := by
  norm_num [Sample.raw, truncToward0, roundLog2, round_eq]

/-- C10: conflicting samples with equal confidence and equal start override
each other in neither direction; concretely, after consuming the conflicting
pair (lower 60000, upper 30000, both confidence 0, both start 1) both entries
survive the folds, `lower()` exceeds `upper()`, and `estimate()` is the
midpoint 45000 of the contradictory envelope. -/
theorem C10_equal_confidence_equal_start_deadlock :
    (∀ a b : Sample,
      ((a.sign_ = false ∧ b.sign_ = true ∧ b.value_ < a.value_) ∨
       (a.sign_ = true ∧ b.sign_ = false ∧ a.value_ < b.value_)) →
      a.confidence_ = b.confidence_ → a.start_ = b.start_ →
      a.overrides b = false ∧ b.overrides a = false) ∧
    ((⟨1, 2, false, 60000, false, 0⟩ : Sample) ∈
      ((Photometer.empty.consume ⟨1, 2, false, 60000, false, 0⟩).consume
        ⟨1, 2, true, 30000, false, 0⟩).lower_by_end ∧
     (⟨1, 2, true, 30000, false, 0⟩ : Sample) ∈
      ((Photometer.empty.consume ⟨1, 2, false, 60000, false, 0⟩).consume
        ⟨1, 2, true, 30000, false, 0⟩).upper_by_end ∧
     ((Photometer.empty.consume ⟨1, 2, false, 60000, false, 0⟩).consume
        ⟨1, 2, true, 30000, false, 0⟩).lower = 60000 ∧
     ((Photometer.empty.consume ⟨1, 2, false, 60000, false, 0⟩).consume
        ⟨1, 2, true, 30000, false, 0⟩).upper = 30000 ∧
     ((Photometer.empty.consume ⟨1, 2, false, 60000, false, 0⟩).consume
        ⟨1, 2, true, 30000, false, 0⟩).lower >
       ((Photometer.empty.consume ⟨1, 2, false, 60000, false, 0⟩).consume
        ⟨1, 2, true, 30000, false, 0⟩).upper ∧
     ((Photometer.empty.consume ⟨1, 2, false, 60000, false, 0⟩).consume
        ⟨1, 2, true, 30000, false, 0⟩).estimate = 45000) := by
  constructor
  · intro a b hconf hc hs
    constructor <;>
      · rw [Sample.overrides]
        rcases hconf with ⟨h1, h2, h3⟩ | ⟨h1, h2, h3⟩ <;>
          simp [Sample.conflicts, h1, h2, h3, le_of_lt h3, hc, hs,
            not_lt_of_le (le_of_eq hs.symm), not_lt_of_le (le_of_eq hs)]
  · refine ⟨by decide, by decide, by decide, by decide, by decide, ?_⟩
    norm_num [Photometer.estimate, show
      ((Photometer.empty.consume ⟨1, 2, false, 60000, false, 0⟩).consume
        ⟨1, 2, true, 30000, false, 0⟩).lower = 60000 from by decide, show
      ((Photometer.empty.consume ⟨1, 2, false, 60000, false, 0⟩).consume
        ⟨1, 2, true, 30000, false, 0⟩).upper = 30000 from by decide]

/-- C10 witness: the universal part of the deadlock theorem applied to the
concrete conflicting pair. -/
theorem C10_equal_confidence_equal_start_deadlock_witness :
    Sample.overrides ⟨1, 2, false, 60000, false, 0⟩ ⟨1, 2, true, 30000, false, 0⟩ = false ∧
    Sample.overrides ⟨1, 2, true, 30000, false, 0⟩ ⟨1, 2, false, 60000, false, 0⟩ = false :=
  C10_equal_confidence_equal_start_deadlock.1
    ⟨1, 2, false, 60000, false, 0⟩ ⟨1, 2, true, 30000, false, 0⟩
    (Or.inl ⟨rfl, rfl, by norm_num⟩) rfl rfl

/-- C3: evidence validity is half-open `[start, end)`.  The pruning step of a
non-clearing `consume` (`erase_old`) removes exactly the entries with
`end ≤ e.start` from both collections, `estimate(t)` evaluates the filtered
snapshot, and that snapshot retains a stored entry with `end = T` exactly for
query times `t < T`. -/
theorem C3_half_open_expiry (m : Photometer) (hm : Photometer.Reachable m)
    (e : Sample) (he : e.clear_ = false) (t : ℚ) :
    (m.erase_old e.start_).lower_by_end =
      m.lower_by_end.filter (fun s => decide (e.start_ < s.end_)) ∧
    (m.erase_old e.start_).upper_by_end =
      m.upper_by_end.filter (fun s => decide (e.start_ < s.end_)) ∧
    m.estimateAt t = (m.asOf t).estimate ∧
    (∀ s : Sample,
      (s ∈ (m.asOf t).lower_by_end ↔ s ∈ m.lower_by_end ∧ t < s.end_) ∧
      (s ∈ (m.asOf t).upper_by_end ↔ s ∈ m.upper_by_end ∧ t < s.end_)) := by
  have inv := reachable_inv hm
  have hal : (m.asOf t).lower_by_end =
      m.lower_by_end.filter (fun s => decide (t < s.end_)) :=
    dropWhile_le_eq_filter t _ inv.sorted_lower
  have hau : (m.asOf t).upper_by_end =
      m.upper_by_end.filter (fun s => decide (t < s.end_)) :=
    dropWhile_le_eq_filter t _ inv.sorted_upper
  refine ⟨dropWhile_le_eq_filter _ _ inv.sorted_lower,
    dropWhile_le_eq_filter _ _ inv.sorted_upper, rfl, ?_⟩
  intro s
  rw [hal, hau]
  simp [List.mem_filter]

/-- C3 witness: in the engine holding the single entry with `end = 2`, the
entry is still in the `estimate`-snapshot at query time 1 and is excluded at
the boundary query time 2. -/
theorem C3_half_open_expiry_witness :
    (⟨1, 2, false, 40000, false, 0⟩ : Sample) ∈
      ((Photometer.empty.consume ⟨1, 2, false, 40000, false, 0⟩).asOf 1).lower_by_end ∧
    (⟨1, 2, false, 40000, false, 0⟩ : Sample) ∉
      ((Photometer.empty.consume ⟨1, 2, false, 40000, false, 0⟩).asOf 2).lower_by_end := by
  constructor
  · exact (((C3_half_open_expiry _
      (Photometer.Reachable.consume _ _ Photometer.Reachable.empty)
      ⟨1, 2, false, 40000, false, 0⟩ rfl 1).2.2.2 _).1).mpr ⟨by decide, by norm_num⟩
  · intro hmem
    exact absurd ((((C3_half_open_expiry _
      (Photometer.Reachable.consume _ _ Photometer.Reachable.empty)
      ⟨1, 2, false, 40000, false, 0⟩ rfl 2).2.2.2 _).1).mp hmem).2 (by norm_num)

/-- C4 (amended): after every sequence of `consume` operations, no stored
entry is a non-strict superset of an entry stored *after* it in the same
collection (collections are in ascending `end` order, insertion order among
equal ends).  A later entry may still subsume an earlier one, as the C4
counterexample shows — redundancy is only checked against the entries present
at insertion time. -/
theorem C4_no_superset_of_later_entry (m : Photometer)
    (hm : Photometer.Reachable m) :
    m.lower_by_end.Pairwise (fun o e => o.is_superset_of e = false) ∧
    m.upper_by_end.Pairwise (fun o e => o.is_superset_of e = false) :=
  ⟨(reachable_inv hm).nosup_lower, (reachable_inv hm).nosup_upper⟩

/-- C4 witness: the amended invariant evaluated on the counterexample state
itself. -/
theorem C4_no_superset_of_later_entry_witness :
    ((Photometer.empty.consume ⟨0, 1, false, 5, false, 0⟩).consume
        ⟨0, 2, false, 10, false, 0⟩).lower_by_end.Pairwise
      (fun o e => o.is_superset_of e = false) ∧
    ((Photometer.empty.consume ⟨0, 1, false, 5, false, 0⟩).consume
        ⟨0, 2, false, 10, false, 0⟩).upper_by_end.Pairwise
      (fun o e => o.is_superset_of e = false) :=
  C4_no_superset_of_later_entry _
    (Photometer.Reachable.consume _ _
      (Photometer.Reachable.consume _ _ Photometer.Reachable.empty))

/-- C5: if, after the pruning step of a non-clearing `consume(e)`, the target
collection holds an entry `o` with `o.end ≥ e.end` which bounds at least as
tightly (`o.value ≥ e.value` for lower entries, `o.value ≤ e.value` for upper
entries), then `e` is discarded: the final state is exactly the post-pruning
state, and `size()` is unchanged by the scan step. -/
theorem C5_subsumed_insertion_noop (m : Photometer)
    (hm : Photometer.Reachable m) (e : Sample) (he : e.clear_ = false)
    (hsub : ∃ o ∈ (m.erase_old e.start_).target e,
      o.end_ ≥ e.end_ ∧
      ((e.sign_ = false ∧ o.value_ ≥ e.value_) ∨
       (e.sign_ = true ∧ o.value_ ≤ e.value_))) :
    m.consume e = m.erase_old e.start_ ∧
    (m.consume e).size = (m.erase_old e.start_).size := by
  obtain ⟨o, ho, hoe, hdir⟩ := hsub
  have inv' : (m.erase_old e.start_).Inv := inv_erase_old (reachable_inv hm) e.start_
  have hmain : m.consume e = m.erase_old e.start_ := by
    rcases hdir with ⟨hes, hval⟩ | ⟨hes, hval⟩
    · rw [Photometer.target, hes] at ho
      simp only [Bool.false_eq_true, if_false] at ho
      have hosign : o.sign_ = false := inv'.dir_lower o ho
      have hsup : o.is_superset_of e = true := by
        simp [Sample.is_superset_of, hosign, hes, hoe, hval]
      have hany : (m.erase_old e.start_).lower_by_end.any
          (fun x => x.is_superset_of e) = true :=
        List.any_eq_true.mpr ⟨o, ho, hsup⟩
      simp [Photometer.consume, he, hes, hany]
    · rw [Photometer.target, hes] at ho
      simp only [if_true] at ho
      have hosign : o.sign_ = true := inv'.dir_upper o ho
      have hsup : o.is_superset_of e = true := by
        simp [Sample.is_superset_of, hosign, hes, hoe, hval]
      have hany : (m.erase_old e.start_).upper_by_end.any
          (fun x => x.is_superset_of e) = true :=
        List.any_eq_true.mpr ⟨o, ho, hsup⟩
      simp [Photometer.consume, he, hes, hany]
  exact ⟨hmain, by rw [hmain]⟩

/-- C5 witness: the stored lower bound (end 2, value 10) subsumes the new
lower bound (end 1, value 5), so consuming the latter is a no-op beyond
pruning. -/
theorem C5_subsumed_insertion_noop_witness :
    (Photometer.empty.consume ⟨0, 2, false, 10, false, 0⟩).consume
        ⟨0, 1, false, 5, false, 0⟩ =
      (Photometer.empty.consume ⟨0, 2, false, 10, false, 0⟩).erase_old 0 ∧
    ((Photometer.empty.consume ⟨0, 2, false, 10, false, 0⟩).consume
        ⟨0, 1, false, 5, false, 0⟩).size =
      ((Photometer.empty.consume ⟨0, 2, false, 10, false, 0⟩).erase_old 0).size :=
  C5_subsumed_insertion_noop _
    (Photometer.Reachable.consume _ _ Photometer.Reachable.empty)
    ⟨0, 1, false, 5, false, 0⟩ rfl
    ⟨⟨0, 2, false, 10, false, 0⟩, by decide, by norm_num, Or.inl ⟨rfl, by norm_num⟩⟩

/-- C6 (amended): a clearing sample wipes both collections and skips pruning,
but `consume` still performs the superset scan and the insertion on the
now-empty target, so the engine afterwards holds exactly the clearing sample
itself (in the collection of its direction), not nothing. -/
theorem C6_clear_wipes_then_inserts (m : Photometer) (e : Sample)
    (he : e.clear_ = true) :
    m.consume e = (if e.sign_ then ⟨[], [e]⟩ else ⟨[e], []⟩ : Photometer) ∧
    (m.consume e).size = 1 := by
  refine ⟨consume_clear m e he, ?_⟩
  rw [consume_clear m e he]
  by_cases hs : e.sign_ = true <;> simp [hs, Photometer.size]

/-- C6 witness: the amended clear behaviour at a concrete engine and clearing
sample. -/
theorem C6_clear_wipes_then_inserts_witness :
    (Photometer.empty.consume ⟨1, 3, false, 20000, false, 0⟩).consume
        ⟨2, 4, true, 30000, true, 1⟩ =
      (⟨[], [⟨2, 4, true, 30000, true, 1⟩]⟩ : Photometer) ∧
    ((Photometer.empty.consume ⟨1, 3, false, 20000, false, 0⟩).consume
        ⟨2, 4, true, 30000, true, 1⟩).size = 1 :=
  C6_clear_wipes_then_inserts _ ⟨2, 4, true, 30000, true, 1⟩ rfl

/-- C7: consuming any non-clearing sample into a fresh engine and then any
clearing sample leaves `size() = 1`: only the clearing sample itself is
stored, every prior entry is gone. -/
theorem C7_clear_scenario_size_one (e1 e2 : Sample)
    (h1 : e1.clear_ = false) (h2 : e2.clear_ = true) :
    ((Photometer.empty.consume e1).consume e2).size = 1 ∧
    (e2 ∈ ((Photometer.empty.consume e1).consume e2).lower_by_end ∨
     e2 ∈ ((Photometer.empty.consume e1).consume e2).upper_by_end) ∧
    (∀ s : Sample,
      s ∈ ((Photometer.empty.consume e1).consume e2).lower_by_end ∨
      s ∈ ((Photometer.empty.consume e1).consume e2).upper_by_end → s = e2) := by
  rw [consume_clear _ e2 h2]
  by_cases hs : e2.sign_ = true <;>
    · simp only [hs, if_true, if_false, Bool.false_eq_true]
      refine ⟨by simp [Photometer.size], by simp, ?_⟩
      intro s hmem
      simpa using hmem

/-- C7 witness: the clear scenario at concrete samples. -/
theorem C7_clear_scenario_size_one_witness :
    ((Photometer.empty.consume ⟨1, 3, false, 20000, false, 0⟩).consume
        ⟨2, 4, false, 30000, true, 1⟩).size = 1 ∧
    ((⟨2, 4, false, 30000, true, 1⟩ : Sample) ∈
      ((Photometer.empty.consume ⟨1, 3, false, 20000, false, 0⟩).consume
        ⟨2, 4, false, 30000, true, 1⟩).lower_by_end ∨
     (⟨2, 4, false, 30000, true, 1⟩ : Sample) ∈
      ((Photometer.empty.consume ⟨1, 3, false, 20000, false, 0⟩).consume
        ⟨2, 4, false, 30000, true, 1⟩).upper_by_end) ∧
    (∀ s : Sample,
      s ∈ ((Photometer.empty.consume ⟨1, 3, false, 20000, false, 0⟩).consume
        ⟨2, 4, false, 30000, true, 1⟩).lower_by_end ∨
      s ∈ ((Photometer.empty.consume ⟨1, 3, false, 20000, false, 0⟩).consume
        ⟨2, 4, false, 30000, true, 1⟩).upper_by_end → s = ⟨2, 4, false, 30000, true, 1⟩) :=
  C7_clear_scenario_size_one ⟨1, 3, false, 20000, false, 0⟩ ⟨2, 4, false, 30000, true, 1⟩ rfl rfl

/-- C8 (amended): `encode` computes the wire value field as the truncation
toward zero of `(value - 50000)/390` — the C cast, not round-to-nearest — and
the wire horizon field as the nearest-integer base-2 logarithm of
`(end - start)/0.0165`.  The value field `v` is characterised by the
truncation inequalities, and for horizons from one base step up to the 4-bit
range the horizon field `h` is the nearest exponent:
`2^(2h) ≤ 2·d² < 2^(2h+2)` where `d = (end-start)/0.0165`, with `h < 16`. -/
theorem C8_encode_field_characterisation (e : Sample)
    (hd1 : 1 ≤ (e.end_ - e.start_) / (33 / 2000))
    (hd2 : ((e.end_ - e.start_) / (33 / 2000)) ^ 2 < 2 ^ 31) :
    ((0 ≤ (e.value_ - 50000) / 390 →
        ((e.raw.value : ℚ) ≤ (e.value_ - 50000) / 390 ∧
         (e.value_ - 50000) / 390 < e.raw.value + 1)) ∧
     ((e.value_ - 50000) / 390 < 0 →
        ((e.value_ - 50000) / 390 ≤ e.raw.value ∧
         (e.raw.value : ℚ) - 1 < (e.value_ - 50000) / 390))) ∧
    ((2 : ℚ) ^ (2 * e.raw.horizon) ≤
        2 * ((e.end_ - e.start_) / (33 / 2000)) ^ 2 ∧
     2 * ((e.end_ - e.start_) / (33 / 2000)) ^ 2 <
        (2 : ℚ) ^ (2 * e.raw.horizon + 2) ∧
     e.raw.horizon < 16) := by
  constructor
  · have hv : e.raw.value = truncToward0 ((e.value_ - 50000) / 390) := rfl
    rw [hv]
    unfold truncToward0
    constructor
    · intro h
      rw [if_pos h]
      exact ⟨Int.floor_le _, Int.lt_floor_add_one _⟩
    · intro h
      rw [if_neg (not_le.mpr h)]
      refine ⟨Int.le_ceil _, ?_⟩
      have := Int.ceil_lt_add_one ((e.value_ - 50000) / 390)
      linarith
  · have hh : e.raw.horizon =
        Nat.log 2 (⌊2 * ((e.end_ - e.start_) / (33 / 2000)) ^ 2⌋).toNat / 2 := rfl
    set d : ℚ := (e.end_ - e.start_) / (33 / 2000) with hd
    have h2d : (2 : ℚ) ≤ 2 * d ^ 2 := by nlinarith
    have hfl2 : (2 : ℤ) ≤ ⌊2 * d ^ 2⌋ := Int.le_floor.mpr (by exact_mod_cast h2d)
    set n : ℕ := (⌊2 * d ^ 2⌋).toNat with hn
    have hnz : (n : ℤ) = ⌊2 * d ^ 2⌋ := Int.toNat_of_nonneg (by omega)
    have hn2 : 2 ≤ n := by omega
    have hfloor_le : ((n : ℤ) : ℚ) ≤ 2 * d ^ 2 := by
      rw [hnz]; exact Int.floor_le _
    have hlt_floor : 2 * d ^ 2 < ((n : ℤ) : ℚ) + 1 := by
      rw [hnz]; exact Int.lt_floor_add_one _
    set L : ℕ := Nat.log 2 n with hL
    have hL1 : 2 ^ L ≤ n := Nat.pow_log_le_self 2 (by omega)
    have hL2 : n < 2 ^ (L + 1) := Nat.lt_pow_succ_log_self (by norm_num) n
    have hgoal1 : (2 : ℚ) ^ (2 * e.raw.horizon) ≤ 2 * d ^ 2 := by
      calc (2 : ℚ) ^ (2 * e.raw.horizon) ≤ (2 : ℚ) ^ L := by
            refine pow_le_pow_right₀ one_le_two ?_
            rw [hh]
            omega
        _ ≤ ((n : ℤ) : ℚ) := by
            push_cast
            exact_mod_cast hL1
        _ ≤ 2 * d ^ 2 := hfloor_le
    refine ⟨hgoal1, ?_, ?_⟩
    · calc 2 * d ^ 2 < ((n : ℤ) : ℚ) + 1 := hlt_floor
        _ ≤ (2 : ℚ) ^ (L + 1) := by
            push_cast
            exact_mod_cast Nat.succ_le_of_lt hL2
        _ ≤ (2 : ℚ) ^ (2 * e.raw.horizon + 2) := by
            refine pow_le_pow_right₀ one_le_two ?_
            rw [hh]
            omega
    · have hlt : (2 : ℚ) ^ (2 * e.raw.horizon) < (2 : ℚ) ^ 32 := by
        calc (2 : ℚ) ^ (2 * e.raw.horizon) ≤ 2 * d ^ 2 := hgoal1
          _ < 2 * 2 ^ 31 := by linarith
          _ = (2 : ℚ) ^ 32 := by norm_num
      have := (pow_lt_pow_iff_right₀ (by norm_num : (1 : ℚ) < 2)).mp hlt
      omega

/-- C8 witness: the characterisation at the sample with value 50390 and a
horizon of two base steps (`d = 2`). -/
theorem C8_encode_field_characterisation_witness :
    ((0 ≤ ((⟨0, 33/1000, false, 50390, false, 0⟩ : Sample).value_ - 50000) / 390 →
        (((⟨0, 33/1000, false, 50390, false, 0⟩ : Sample).raw.value : ℚ) ≤
            ((⟨0, 33/1000, false, 50390, false, 0⟩ : Sample).value_ - 50000) / 390 ∧
         ((⟨0, 33/1000, false, 50390, false, 0⟩ : Sample).value_ - 50000) / 390 <
            (⟨0, 33/1000, false, 50390, false, 0⟩ : Sample).raw.value + 1)) ∧
     (((⟨0, 33/1000, false, 50390, false, 0⟩ : Sample).value_ - 50000) / 390 < 0 →
        (((⟨0, 33/1000, false, 50390, false, 0⟩ : Sample).value_ - 50000) / 390 ≤
            (⟨0, 33/1000, false, 50390, false, 0⟩ : Sample).raw.value ∧
         ((⟨0, 33/1000, false, 50390, false, 0⟩ : Sample).raw.value : ℚ) - 1 <
            ((⟨0, 33/1000, false, 50390, false, 0⟩ : Sample).value_ - 50000) / 390))) ∧
    ((2 : ℚ) ^ (2 * (⟨0, 33/1000, false, 50390, false, 0⟩ : Sample).raw.horizon) ≤
        2 * (((⟨0, 33/1000, false, 50390, false, 0⟩ : Sample).end_ -
          (⟨0, 33/1000, false, 50390, false, 0⟩ : Sample).start_) / (33 / 2000)) ^ 2 ∧
     2 * (((⟨0, 33/1000, false, 50390, false, 0⟩ : Sample).end_ -
          (⟨0, 33/1000, false, 50390, false, 0⟩ : Sample).start_) / (33 / 2000)) ^ 2 <
        (2 : ℚ) ^ (2 * (⟨0, 33/1000, false, 50390, false, 0⟩ : Sample).raw.horizon + 2) ∧
     (⟨0, 33/1000, false, 50390, false, 0⟩ : Sample).raw.horizon < 16) :=
  C8_encode_field_characterisation ⟨0, 33/1000, false, 50390, false, 0⟩
    (by norm_num) (by norm_num)

/-- C9: for every sample decoded from a 2-byte wire pattern, re-encoding it
and decoding again at its own start time reproduces direction, confidence and
clear flag exactly, the value within one 390-unit quantization step, and the
end time within one power-of-two horizon step (the round trip is in fact
exact). -/
theorem C9_decode_encode_roundtrip (t : ℚ) (b0 b1 : ℕ)
    (h0 : b0 < 256) (h1 : b1 < 256) :
    (Sample.from_raw (Sample.from_raw t b0 b1).start_
        (Sample.from_raw t b0 b1).raw.toBytes.1
        (Sample.from_raw t b0 b1).raw.toBytes.2).sign_ =
      (Sample.from_raw t b0 b1).sign_ ∧
    (Sample.from_raw (Sample.from_raw t b0 b1).start_
        (Sample.from_raw t b0 b1).raw.toBytes.1
        (Sample.from_raw t b0 b1).raw.toBytes.2).confidence_ =
      (Sample.from_raw t b0 b1).confidence_ ∧
    (Sample.from_raw (Sample.from_raw t b0 b1).start_
        (Sample.from_raw t b0 b1).raw.toBytes.1
        (Sample.from_raw t b0 b1).raw.toBytes.2).clear_ =
      (Sample.from_raw t b0 b1).clear_ ∧
    |(Sample.from_raw (Sample.from_raw t b0 b1).start_
        (Sample.from_raw t b0 b1).raw.toBytes.1
        (Sample.from_raw t b0 b1).raw.toBytes.2).value_ -
      (Sample.from_raw t b0 b1).value_| ≤ 390 ∧
    |(Sample.from_raw (Sample.from_raw t b0 b1).start_
        (Sample.from_raw t b0 b1).raw.toBytes.1
        (Sample.from_raw t b0 b1).raw.toBytes.2).end_ -
      (Sample.from_raw t b0 b1).end_| ≤
        RawSample.horizon_s (Sample.from_raw t b0 b1).raw := by
  have hr := ofBytes_ranges b0 b1
  have hraw : (Sample.from_raw t b0 b1).raw = RawSample.ofBytes b0 b1 :=
    raw_ofRaw t _
  have hback : RawSample.ofBytes (Sample.from_raw t b0 b1).raw.toBytes.1
      (Sample.from_raw t b0 b1).raw.toBytes.2 = (Sample.from_raw t b0 b1).raw := by
    rw [hraw]
    exact ofBytes_toBytes _ hr.1 hr.2.1 hr.2.2.1 hr.2.2.2
  have hkey : Sample.from_raw (Sample.from_raw t b0 b1).start_
      (Sample.from_raw t b0 b1).raw.toBytes.1
      (Sample.from_raw t b0 b1).raw.toBytes.2 = Sample.from_raw t b0 b1 := by
    show Sample.ofRaw t (RawSample.ofBytes (Sample.from_raw t b0 b1).raw.toBytes.1
      (Sample.from_raw t b0 b1).raw.toBytes.2) = Sample.from_raw t b0 b1
    rw [hback, hraw]
    rfl
  rw [hkey]
  refine ⟨rfl, rfl, rfl, ?_, ?_⟩
  · simp
  · rw [sub_self, abs_zero, hraw, RawSample.horizon_s]
    positivity

/-- C9 witness: the round trip at the wire bytes `0x82 0x57` of the source's
deserialisation test, observed at time 1/2. -/
theorem C9_decode_encode_roundtrip_witness :
    (Sample.from_raw (Sample.from_raw (1/2) 130 87).start_
        (Sample.from_raw (1/2) 130 87).raw.toBytes.1
        (Sample.from_raw (1/2) 130 87).raw.toBytes.2).sign_ =
      (Sample.from_raw (1/2) 130 87).sign_ ∧
    (Sample.from_raw (Sample.from_raw (1/2) 130 87).start_
        (Sample.from_raw (1/2) 130 87).raw.toBytes.1
        (Sample.from_raw (1/2) 130 87).raw.toBytes.2).confidence_ =
      (Sample.from_raw (1/2) 130 87).confidence_ ∧
    (Sample.from_raw (Sample.from_raw (1/2) 130 87).start_
        (Sample.from_raw (1/2) 130 87).raw.toBytes.1
        (Sample.from_raw (1/2) 130 87).raw.toBytes.2).clear_ =
      (Sample.from_raw (1/2) 130 87).clear_ ∧
    |(Sample.from_raw (Sample.from_raw (1/2) 130 87).start_
        (Sample.from_raw (1/2) 130 87).raw.toBytes.1
        (Sample.from_raw (1/2) 130 87).raw.toBytes.2).value_ -
      (Sample.from_raw (1/2) 130 87).value_| ≤ 390 ∧
    |(Sample.from_raw (Sample.from_raw (1/2) 130 87).start_
        (Sample.from_raw (1/2) 130 87).raw.toBytes.1
        (Sample.from_raw (1/2) 130 87).raw.toBytes.2).end_ -
      (Sample.from_raw (1/2) 130 87).end_| ≤
        RawSample.horizon_s (Sample.from_raw (1/2) 130 87).raw :=
  C9_decode_encode_roundtrip (1/2) 130 87 (by norm_num) (by norm_num)
